import Mathlib

/-! Chat-room relay server (`src/main.go`)

A shallow embedding of the room directory of `src/main.go` and the properties of it
that the specification states.

Modelling decisions, all read off the source:

* `*websocket.Conn` is compared by pointer identity only, so a connection is its address,
  a natural number.
* `map[*websocket.Conn]struct{}` is a finite set of connections: `Finset Conn`.
  `len` is `Finset.card`, `m[conn] = struct{}{}` is `insert`, `delete(m, conn)` is `erase`.
* `map[string]*ChatRoom` is a partial function from room ids to rooms. Every `ChatRoom`
  is allocated by `createRoom` and stored under one key only, and no function keeps a
  `*ChatRoom` across calls (each one looks the room up again by id), so the pointer is
  represented by the value it points to.
* A Go `error` is its message; `nil` is `none`.
* The mutexes are held for the whole body of `createRoom`, `joinRoom`, `broadcastRoom` and
  the leave step, so each of them is one atomic state transformer. The lookup on line 96
  of `handleWebSocket` takes no lock; it is a step of its own in the interleaving model
  at the end of the definitions.
* `range` over a Go map visits the keys in an unspecified order; the order is an argument
  of the loop, and `IsRangeOrder` says that it enumerates the map.
* `websocket.Conn.WriteMessage` belongs to an external library; it is a parameter
  `write`, returning `none` for `nil` and `some e` for the error `e`.
-/

namespace ChatServer

/-- The identity of a `*websocket.Conn`. -/
abbrev Conn := Nat

/-- The payload `[]byte` of a message. -/
abbrev Bytes := List (Fin 256)

/-- The message of a Go `error`. -/
abbrev Error := String

/-- The struct `ChatRoom` (lines 12-16); `roomMu` is not state of the sequential model. -/
structure ChatRoom where
  participants : Finset Conn
  roomID : String

/-- Two rooms are the same value when they have the same members and the same id. -/
instance : DecidableEq ChatRoom := fun a b =>
  decidable_of_iff (a.participants = b.participants ∧ a.roomID = b.roomID)
    ⟨fun h => by cases a; cases b; simp_all, fun h => by rw [h]; exact ⟨rfl, rfl⟩⟩

/-- The struct `Server` (lines 18-22); `roomsMu` and the constant `upgrader` are left out. -/
structure Server where
  rooms : String → Option ChatRoom

/-- Line 24: `NewServer` returns a server with an empty directory. -/
def NewServer : Server :=
  { rooms := fun _ => none }

/-- Lines 47 and 68: `fmt.Errorf("room %s not found", roomID)`. -/
def errRoomNotFound (roomID : String) : Error :=
  "room " ++ roomID ++ " not found"

/-- Line 54: `fmt.Errorf("room %s is full", roomID)`. -/
def errRoomFull (roomID : String) : Error :=
  "room " ++ roomID ++ " is full"

/-- Lines 31-39: `createRoom` stores a freshly allocated empty room under `roomID`,
whatever was stored there before. -/
def createRoom (s : Server) (roomID : String) : Server :=
  { rooms := Function.update s.rooms roomID (some { participants := ∅, roomID := roomID }) }

/-- Lines 41-60: `joinRoom` returns the new server state and the returned `error`. -/
def joinRoom (s : Server) (roomID : String) (conn : Conn) : Server × Option Error :=
  match s.rooms roomID with
  | none => (s, some (errRoomNotFound roomID))
  | some room =>
    if room.participants.card ≥ 2 then
      (s, some (errRoomFull roomID))
    else
      ({ rooms := Function.update s.rooms roomID
          (some { room with participants := insert conn room.participants }) }, none)

/-- Lines 74-78: the loop `for participant := range room.participants`, visiting the
participants in the order `order`. It returns the `WriteMessage` calls it made, in order,
and the error the loop returned with, if any. -/
def rangeWrite (write : Conn → Bytes → Option Error) (msg : Bytes) :
    List Conn → List (Conn × Bytes) × Option Error
  | [] => ([], none)
  | participant :: rest =>
    match write participant msg with
    | some err => ([(participant, msg)], some err)
    | none =>
      let r := rangeWrite write msg rest
      ((participant, msg) :: r.1, r.2)

/-- The list `order` is a possible visiting order of `range` over the set `ps`: every
element of `ps` once, and nothing else. -/
def IsRangeOrder (ps : Finset Conn) (order : List Conn) : Prop :=
  order.Nodup ∧ order.toFinset = ps

instance (ps : Finset Conn) (order : List Conn) : Decidable (IsRangeOrder ps order) :=
  inferInstanceAs (Decidable (order.Nodup ∧ order.toFinset = ps))

/-- What a call of `broadcastRoom` leaves behind: the server state, the `WriteMessage`
calls made (connection and payload, in order) and the returned `error`. -/
structure BroadcastResult where
  server : Server
  sends : List (Conn × Bytes)
  err : Option Error

/-- Lines 62-81: `broadcastRoom`. -/
def broadcastRoom (write : Conn → Bytes → Option Error) (order : List Conn)
    (s : Server) (roomID : String) (msg : Bytes) : BroadcastResult :=
  match s.rooms roomID with
  | none => { server := s, sends := [], err := some (errRoomNotFound roomID) }
  | some _ =>
    let r := rangeWrite write msg order
    { server := s, sends := r.1, err := r.2 }

/-- Lines 96-98 of `handleWebSocket`: `if _, ok := s.rooms[roomID]; !ok { s.createRoom(roomID) }`,
run without interruption. -/
def resolveRoom (s : Server) (roomID : String) : Server :=
  match s.rooms roomID with
  | some _ => s
  | none => createRoom s roomID

/-- Lines 109-111 of `handleWebSocket`: `delete(s.rooms[roomID].participants, conn)`.
When `roomID` is not in the directory `s.rooms[roomID]` is a nil pointer and reading its
field panics: `none`. -/
def leaveRoom (s : Server) (roomID : String) (conn : Conn) : Option Server :=
  match s.rooms roomID with
  | none => none
  | some room =>
    some { rooms := Function.update s.rooms roomID
            (some { room with participants := room.participants.erase conn }) }

/-- A run of `joinRoom` calls for the same room, one after the other (they exclude each
other through `roomsMu`): the final state and the `error` of each call, in call order. -/
def joinAll (s : Server) (roomID : String) : List Conn → Server × List (Option Error)
  | [] => (s, [])
  | conn :: rest =>
    let r := joinRoom s roomID conn
    let rs := joinAll r.1 roomID rest
    (rs.1, r.2 :: rs.2)

/-- The number of calls that returned `nil`. -/
def successes (results : List (Option Error)) : Nat :=
  (results.filter Option.isNone).length

/-- One operation on the server, with the arguments it is called with. For a broadcast
they include the behaviour of `WriteMessage` and the visiting order of the `range` loop. -/
inductive Op where
  | create (roomID : String)
  | join (roomID : String) (conn : Conn)
  | broadcast (write : Conn → Bytes → Option Error) (order : List Conn)
      (roomID : String) (msg : Bytes)
  | leave (roomID : String) (conn : Conn)

/-- The state after one operation; `none` when the operation panics. -/
def Op.run (s : Server) : Op → Option Server
  | .create roomID => some (createRoom s roomID)
  | .join roomID conn => some (joinRoom s roomID conn).1
  | .broadcast write order roomID msg => some (broadcastRoom write order s roomID msg).server
  | .leave roomID conn => leaveRoom s roomID conn

/-- The state after a finite sequence of operations, none of which panics. -/
def runOps (s : Server) : List Op → Option Server
  | [] => some s
  | op :: ops =>
    match op.run s with
    | none => none
    | some s1 => runOps s1 ops

/-- Every room of the directory has at most 2 participants. -/
def CapacityOK (s : Server) : Prop :=
  ∀ roomID room, s.rooms roomID = some room → room.participants.card ≤ 2

/-- A room is registered under `roomID`. -/
def Registered (s : Server) (roomID : String) : Prop :=
  (s.rooms roomID).isSome = true

instance (s : Server) (roomID : String) : Decidable (Registered s roomID) :=
  inferInstanceAs (Decidable ((s.rooms roomID).isSome = true))

/-- The connection `conn` is a participant of the room registered under `roomID`. -/
def Member (s : Server) (roomID : String) (conn : Conn) : Prop :=
  ∃ room, s.rooms roomID = some room ∧ conn ∈ room.participants

/-! ### Interleaving of connection handlers

Lines 96-100 of `handleWebSocket` are three steps: the lookup `s.rooms[roomID]` of line 96,
made without a lock, the call of `createRoom` when the lookup found nothing, and the call
of `joinRoom`. `createRoom` and `joinRoom` hold `roomsMu` throughout, so handlers
interleave at the boundaries of these steps. -/

/-- Where a handler stands in lines 96-103. -/
inductive HandlerPC where
  | lookup
  | create
  | join
  | admitted
  | rejected
deriving DecidableEq

/-- A handler goroutine: its connection and its next step. -/
structure Handler where
  conn : Conn
  pc : HandlerPC
deriving DecidableEq

/-- The server, the handlers running against it, and a count of the `ChatRoom` objects
allocated so far (one per executed `createRoom`). -/
structure System where
  server : Server
  handlers : List Handler
  created : Nat

/-- Handler number `i` takes its next step; all handlers were given the room id `roomID`. -/
def handlerStep (roomID : String) (sys : System) (i : Nat) : System :=
  match sys.handlers[i]? with
  | none => sys
  | some h =>
    match h.pc with
    | .lookup =>
      match sys.server.rooms roomID with
      | some _ => { sys with handlers := sys.handlers.set i { h with pc := .join } }
      | none => { sys with handlers := sys.handlers.set i { h with pc := .create } }
    | .create =>
      { server := createRoom sys.server roomID
        handlers := sys.handlers.set i { h with pc := .join }
        created := sys.created + 1 }
    | .join =>
      match joinRoom sys.server roomID h.conn with
      | (s1, none) =>
        { sys with server := s1, handlers := sys.handlers.set i { h with pc := .admitted } }
      | (s1, some _) =>
        { sys with server := s1, handlers := sys.handlers.set i { h with pc := .rejected } }
    | .admitted => sys
    | .rejected => sys

/-- The system after the handlers have taken steps in the order `schedule`. -/
def runSchedule (roomID : String) (sys : System) : List Nat → System
  | [] => sys
  | i :: schedule => runSchedule roomID (handlerStep roomID sys i) schedule

/-- A `WriteMessage` that fails on connection 1 and succeeds on every other one. -/
def writeFailsOn1 : Conn → Bytes → Option Error :=
  fun c _ => if c = 1 then some "write: broken pipe" else none

/-- The bytes of the text `hello`. -/
def hello : Bytes := [104, 101, 108, 108, 111]

/-- The server after room `r1` was created and connections 1 and 2 joined it. -/
def twoMembers : Server :=
  (joinRoom (joinRoom (createRoom NewServer "r1") "r1" 1).1 "r1" 2).1

/-- Two handlers, for connections 1 and 2, both about to look the room id up on a new
server; no room allocated yet. -/
def twoHandlers : System :=
  { server := NewServer
    handlers := [{ conn := 1, pc := .lookup }, { conn := 2, pc := .lookup }]
    created := 0 }

/-! ## Helper lemmas -/

theorem Server.ext_rooms {s t : Server} (h : s.rooms = t.rooms) : s = t := by
  cases s; cases t; cases h; rfl

theorem errRoomFull_ne_errRoomNotFound (a b : String) :
    errRoomFull a ≠ errRoomNotFound b := by
  intro h
  have h2 := congrArg (fun e : String => e.data.reverse.head?) h
  simp [errRoomFull, errRoomNotFound, String.data_append] at h2

theorem joinRoom_of_lt (s : Server) (roomID : String) (conn : Conn) (room : ChatRoom)
    (hreg : s.rooms roomID = some room) (hlt : room.participants.card < 2) :
    joinRoom s roomID conn =
      ({ rooms := Function.update s.rooms roomID
          (some { room with participants := insert conn room.participants }) }, none) := by
  have hge : ¬ room.participants.card ≥ 2 := by omega
  simp [joinRoom, hreg, hge]

theorem joinRoom_of_ge (s : Server) (roomID : String) (conn : Conn) (room : ChatRoom)
    (hreg : s.rooms roomID = some room) (hge : room.participants.card ≥ 2) :
    joinRoom s roomID conn = (s, some (errRoomFull roomID)) := by
  simp [joinRoom, hreg, hge]

theorem leaveRoom_of_registered (s : Server) (roomID : String) (conn : Conn) (room : ChatRoom)
    (hreg : s.rooms roomID = some room) :
    leaveRoom s roomID conn =
      some { rooms := Function.update s.rooms roomID
              (some { room with participants := room.participants.erase conn }) } := by
  simp [leaveRoom, hreg]

theorem broadcastRoom_server (write : Conn → Bytes → Option Error) (order : List Conn)
    (s : Server) (roomID : String) (msg : Bytes) :
    (broadcastRoom write order s roomID msg).server = s := by
  unfold broadcastRoom
  cases s.rooms roomID <;> rfl

theorem rangeWrite_all_ok (write : Conn → Bytes → Option Error) (msg : Bytes) :
    ∀ order : List Conn, (∀ c ∈ order, write c msg = none) →
      rangeWrite write msg order = (order.map (fun c => (c, msg)), none) := by
  intro order
  induction order with
  | nil => intro _; rfl
  | cons c rest ih =>
    intro hok
    have hc : write c msg = none := hok c (List.mem_cons_self _ _)
    have hrest := ih (fun d hd => hok d (List.mem_cons_of_mem _ hd))
    simp [rangeWrite, hc, hrest]

theorem broadcastRoom_all_ok (write : Conn → Bytes → Option Error) (order : List Conn)
    (s : Server) (roomID : String) (msg : Bytes) (room : ChatRoom)
    (hreg : s.rooms roomID = some room) (hord : IsRangeOrder room.participants order)
    (hok : ∀ c ∈ room.participants, write c msg = none) :
    (broadcastRoom write order s roomID msg).sends = order.map (fun c => (c, msg)) ∧
    (broadcastRoom write order s roomID msg).err = none := by
  have hall : ∀ c ∈ order, write c msg = none := by
    intro c hc
    apply hok
    rw [← hord.2]
    exact List.mem_toFinset.mpr hc
  simp [broadcastRoom, hreg, rangeWrite_all_ok write msg order hall]

theorem count_map_pair (msg : Bytes) (c : Conn) (order : List Conn) :
    (order.map (fun d => (d, msg))).count (c, msg) = order.count c := by
  induction order with
  | nil => rfl
  | cons d rest ih =>
    by_cases h : d = c
    · subst h
      simp [ih]
    · have h2 : ¬ ((d, msg) = (c, msg)) := by
        intro hp
        exact h (Prod.mk.inj hp).1
      simp [List.count_cons, ih, h, h2]

theorem CapacityOK_createRoom (s : Server) (roomID : String) (h : CapacityOK s) :
    CapacityOK (createRoom s roomID) := by
  intro k room hk
  by_cases hkr : k = roomID
  · subst hkr
    simp [createRoom] at hk
    subst hk
    simp
  · simp [createRoom, Function.update_noteq hkr] at hk
    exact h k room hk

theorem CapacityOK_joinRoom (s : Server) (roomID : String) (conn : Conn) (h : CapacityOK s) :
    CapacityOK (joinRoom s roomID conn).1 := by
  cases hreg : s.rooms roomID with
  | none => simpa [joinRoom, hreg] using h
  | some room =>
    by_cases hlt : room.participants.card < 2
    · rw [joinRoom_of_lt s roomID conn room hreg hlt]
      intro k r hk
      by_cases hkr : k = roomID
      · subst hkr
        simp at hk
        subst hk
        have := Finset.card_insert_le conn room.participants
        simp only
        omega
      · simp [Function.update_noteq hkr] at hk
        exact h k r hk
    · rw [joinRoom_of_ge s roomID conn room hreg (by omega)]
      exact h

theorem CapacityOK_leaveRoom (s s1 : Server) (roomID : String) (conn : Conn)
    (h : CapacityOK s) (hl : leaveRoom s roomID conn = some s1) : CapacityOK s1 := by
  cases hreg : s.rooms roomID with
  | none => simp [leaveRoom, hreg] at hl
  | some room =>
    rw [leaveRoom_of_registered s roomID conn room hreg] at hl
    cases hl
    intro k r hk
    by_cases hkr : k = roomID
    · subst hkr
      simp at hk
      subst hk
      have h1 := Finset.card_erase_le (s := room.participants) (a := conn)
      have h2 := h k room hreg
      simp only
      omega
    · simp [Function.update_noteq hkr] at hk
      exact h k r hk

theorem CapacityOK_run (s s1 : Server) (op : Op) (h : CapacityOK s)
    (hrun : op.run s = some s1) : CapacityOK s1 := by
  cases op with
  | create roomID =>
    cases hrun
    exact CapacityOK_createRoom s roomID h
  | join roomID conn =>
    cases hrun
    exact CapacityOK_joinRoom s roomID conn h
  | broadcast write order roomID msg =>
    simp only [Op.run, broadcastRoom_server] at hrun
    cases hrun
    exact h
  | leave roomID conn => exact CapacityOK_leaveRoom s s1 roomID conn h hrun

theorem CapacityOK_runOps (ops : List Op) :
    ∀ s s1 : Server, CapacityOK s → runOps s ops = some s1 → CapacityOK s1 := by
  induction ops with
  | nil =>
    intro s s1 h hrun
    cases hrun
    exact h
  | cons op ops ih =>
    intro s s1 h hrun
    cases hop : op.run s with
    | none => simp [runOps, hop] at hrun
    | some s2 =>
      simp only [runOps, hop] at hrun
      exact ih s2 s1 (CapacityOK_run s s2 op h hop) hrun

theorem Registered_createRoom (s : Server) (roomID k : String) (h : Registered s k) :
    Registered (createRoom s roomID) k := by
  unfold Registered at *
  by_cases hkr : k = roomID
  · subst hkr
    simp [createRoom]
  · simpa [createRoom, Function.update_noteq hkr] using h

theorem Registered_joinRoom (s : Server) (roomID k : String) (conn : Conn)
    (h : Registered s k) : Registered (joinRoom s roomID conn).1 k := by
  cases hreg : s.rooms roomID with
  | none => simpa [joinRoom, hreg] using h
  | some room =>
    by_cases hlt : room.participants.card < 2
    · rw [joinRoom_of_lt s roomID conn room hreg hlt]
      unfold Registered at *
      by_cases hkr : k = roomID
      · subst hkr
        simp
      · simpa [Function.update_noteq hkr] using h
    · rw [joinRoom_of_ge s roomID conn room hreg (by omega)]
      exact h

theorem Registered_leaveRoom (s s1 : Server) (roomID k : String) (conn : Conn)
    (h : Registered s k) (hl : leaveRoom s roomID conn = some s1) : Registered s1 k := by
  cases hreg : s.rooms roomID with
  | none => simp [leaveRoom, hreg] at hl
  | some room =>
    rw [leaveRoom_of_registered s roomID conn room hreg] at hl
    cases hl
    unfold Registered at *
    by_cases hkr : k = roomID
    · subst hkr
      simp
    · simpa [Function.update_noteq hkr] using h

theorem Registered_run (s s1 : Server) (op : Op) (k : String) (h : Registered s k)
    (hrun : op.run s = some s1) : Registered s1 k := by
  cases op with
  | create roomID =>
    cases hrun
    exact Registered_createRoom s roomID k h
  | join roomID conn =>
    cases hrun
    exact Registered_joinRoom s roomID k conn h
  | broadcast write order roomID msg =>
    simp only [Op.run, broadcastRoom_server] at hrun
    cases hrun
    exact h
  | leave roomID conn => exact Registered_leaveRoom s s1 roomID k conn h hrun

theorem Registered_runOps (ops : List Op) (k : String) :
    ∀ s s1 : Server, Registered s k → runOps s ops = some s1 → Registered s1 k := by
  induction ops with
  | nil =>
    intro s s1 h hrun
    cases hrun
    exact h
  | cons op ops ih =>
    intro s s1 h hrun
    cases hop : op.run s with
    | none => simp [runOps, hop] at hrun
    | some s2 =>
      simp only [runOps, hop] at hrun
      exact ih s2 s1 (Registered_run s s2 op k h hop) hrun

theorem Registered_of_joinRoom (s s1 : Server) (roomID : String) (conn : Conn)
    (hj : joinRoom s roomID conn = (s1, none)) : Registered s1 roomID := by
  cases hreg : s.rooms roomID with
  | none => simp [joinRoom, hreg] at hj
  | some room =>
    have h1 : Registered s roomID := by simp [Registered, hreg]
    have h2 := Registered_joinRoom s roomID roomID conn h1
    rw [hj] at h2
    exact h2

theorem joinRoom_rooms_of_lt (s : Server) (roomID : String) (conn : Conn) (room : ChatRoom)
    (hreg : s.rooms roomID = some room) (hlt : room.participants.card < 2) :
    (joinRoom s roomID conn).2 = none ∧
    (joinRoom s roomID conn).1.rooms roomID =
      some { participants := insert conn room.participants, roomID := room.roomID } := by
  rw [joinRoom_of_lt s roomID conn room hreg hlt]
  exact ⟨rfl, Function.update_same _ _ _⟩

theorem joinAll_full (roomID : String) (conns : List Conn) :
    ∀ (s : Server) (room : ChatRoom), s.rooms roomID = some room →
      room.participants.card ≥ 2 →
      joinAll s roomID conns = (s, List.replicate conns.length (some (errRoomFull roomID))) := by
  induction conns with
  | nil => intro s room _ _; rfl
  | cons c rest ih =>
    intro s room hreg hge
    simp [joinAll, joinRoom_of_ge s roomID c room hreg hge, ih s room hreg hge,
      List.replicate_succ]

theorem successes_replicate_some (n : Nat) (e : Error) :
    successes (List.replicate n (some e)) = 0 := by
  induction n with
  | zero => rfl
  | succ n ih =>
    simp only [successes] at ih
    simp [successes, List.replicate_succ, ih]

theorem Member_of_joinRoom (s s1 : Server) (roomID : String) (conn : Conn)
    (hj : joinRoom s roomID conn = (s1, none)) : Member s1 roomID conn := by
  cases hreg : s.rooms roomID with
  | none => simp [joinRoom, hreg] at hj
  | some room =>
    by_cases hlt : room.participants.card < 2
    · have h2 := (joinRoom_rooms_of_lt s roomID conn room hreg hlt).2
      rw [hj] at h2
      exact ⟨⟨insert conn room.participants, room.roomID⟩, h2, Finset.mem_insert_self _ _⟩
    · have h3 := joinRoom_of_ge s roomID conn room hreg (by omega)
      rw [hj] at h3
      exact absurd (Prod.mk.inj h3).2 (by simp)

theorem Member_joinRoom (s : Server) (roomID k : String) (conn c : Conn)
    (h : Member s roomID conn) : Member (joinRoom s k c).1 roomID conn := by
  cases hreg : s.rooms k with
  | none => simpa [joinRoom, hreg] using h
  | some room =>
    by_cases hlt : room.participants.card < 2
    · rw [joinRoom_of_lt s k c room hreg hlt]
      obtain ⟨r, hr, hmem⟩ := h
      by_cases hkr : roomID = k
      · subst hkr
        rw [hreg] at hr
        cases hr
        exact ⟨⟨insert c room.participants, room.roomID⟩, Function.update_same _ _ _,
          Finset.mem_insert_of_mem hmem⟩
      · exact ⟨r, by simp [Function.update_noteq hkr, hr], hmem⟩
    · rw [joinRoom_of_ge s k c room hreg (by omega)]
      exact h

theorem Member_run (s s1 : Server) (op : Op) (roomID : String) (conn : Conn)
    (h : Member s roomID conn) (hrun : op.run s = some s1)
    (hcreate : op ≠ .create roomID) (hleave : op ≠ .leave roomID conn) :
    Member s1 roomID conn := by
  cases op with
  | create k =>
    cases hrun
    have hkr : roomID ≠ k := fun e => hcreate (by rw [e])
    obtain ⟨r, hr, hmem⟩ := h
    exact ⟨r, by simp [createRoom, Function.update_noteq hkr, hr], hmem⟩
  | join k c =>
    cases hrun
    exact Member_joinRoom s roomID k conn c h
  | broadcast write order k msg =>
    simp only [Op.run, broadcastRoom_server] at hrun
    cases hrun
    exact h
  | leave k c =>
    cases hreg : s.rooms k with
    | none => simp [Op.run, leaveRoom, hreg] at hrun
    | some room =>
      simp only [Op.run] at hrun
      rw [leaveRoom_of_registered s k c room hreg] at hrun
      cases hrun
      obtain ⟨r, hr, hmem⟩ := h
      by_cases hkr : roomID = k
      · subst hkr
        rw [hreg] at hr
        cases hr
        have hc : conn ≠ c := fun e => hleave (by rw [e])
        exact ⟨⟨room.participants.erase c, room.roomID⟩, Function.update_same _ _ _,
          Finset.mem_erase.mpr ⟨hc, hmem⟩⟩
      · exact ⟨r, by simp [Function.update_noteq hkr, hr], hmem⟩

theorem Member_runOps (ops : List Op) (roomID : String) (conn : Conn) :
    ∀ s s1 : Server, Member s roomID conn → runOps s ops = some s1 →
      (∀ op ∈ ops, op ≠ .create roomID ∧ op ≠ .leave roomID conn) →
      Member s1 roomID conn := by
  induction ops with
  | nil =>
    intro s s1 h hrun _
    cases hrun
    exact h
  | cons op ops ih =>
    intro s s1 h hrun hops
    cases hop : op.run s with
    | none => simp [runOps, hop] at hrun
    | some s2 =>
      simp only [runOps, hop] at hrun
      have h1 := hops op (List.mem_cons_self _ _)
      exact ih s2 s1 (Member_run s s2 op roomID conn h hop h1.1 h1.2) hrun
        (fun o ho => hops o (List.mem_cons_of_mem _ ho))

/-! ## Claims -/

/-- C2: on a registered room, `joinRoom` succeeds and makes `conn` a member (changing nothing
else) exactly when the room has fewer than 2 participants; otherwise it returns the
room-full error, which differs from the room-not-found error, and the state is unchanged. -/
theorem joinRoom_registered (s : Server) (roomID : String) (conn : Conn) (room : ChatRoom)
    (hreg : s.rooms roomID = some room) :
    ((joinRoom s roomID conn).2 = none ↔ room.participants.card < 2) ∧
    (room.participants.card < 2 →
      (joinRoom s roomID conn).2 = none ∧
      (joinRoom s roomID conn).1.rooms roomID =
        some { participants := insert conn room.participants, roomID := room.roomID } ∧
      (∃ r, (joinRoom s roomID conn).1.rooms roomID = some r ∧ conn ∈ r.participants) ∧
      ∀ other, other ≠ roomID → (joinRoom s roomID conn).1.rooms other = s.rooms other) ∧
    (¬ room.participants.card < 2 →
      joinRoom s roomID conn = (s, some (errRoomFull roomID))) ∧
    errRoomFull roomID ≠ errRoomNotFound roomID := by
  refine ⟨?_, ?_, ?_, errRoomFull_ne_errRoomNotFound _ _⟩
  · constructor
    · intro h
      by_contra hlt
      rw [joinRoom_of_ge s roomID conn room hreg (by omega)] at h
      simp at h
    · intro hlt
      rw [joinRoom_of_lt s roomID conn room hreg hlt]
  · intro hlt
    rw [joinRoom_of_lt s roomID conn room hreg hlt]
    refine ⟨rfl, ?_, ⟨⟨insert conn room.participants, room.roomID⟩, ?_, ?_⟩, ?_⟩
    · exact Function.update_same _ _ _
    · exact Function.update_same _ _ _
    · exact Finset.mem_insert_self _ _
    intro other hne
    simp [Function.update_noteq hne]
  · intro hge
    exact joinRoom_of_ge s roomID conn room hreg (by omega)

/-- The statement of C2 on a new server with the empty room `r1` and connection 7. -/
theorem joinRoom_registered_witness :
    (createRoom NewServer "r1").rooms "r1" = some { participants := ∅, roomID := "r1" } ∧
    ((joinRoom (createRoom NewServer "r1") "r1" 7).2 = none ↔
      (∅ : Finset Conn).card < 2) :=
  ⟨by decide,
   (joinRoom_registered (createRoom NewServer "r1") "r1" 7
      { participants := ∅, roomID := "r1" } (by decide)).1⟩

/-- C6: on a registered room the handler's leave step does not fail, doing it a second
time gives the same server state as doing it once, and when `conn` is not a member it
leaves the state as it was. -/
theorem leaveRoom_idempotent (s : Server) (roomID : String) (conn : Conn) (room : ChatRoom)
    (hreg : s.rooms roomID = some room) :
    ∃ s1, leaveRoom s roomID conn = some s1 ∧ leaveRoom s1 roomID conn = some s1 ∧
      (conn ∉ room.participants → s1 = s) := by
  refine ⟨_, leaveRoom_of_registered s roomID conn room hreg, ?_, ?_⟩
  · simp [leaveRoom]
  · intro hnot
    apply Server.ext_rooms
    simp only [Finset.erase_eq_of_not_mem hnot]
    rw [← hreg]
    exact Function.update_eq_self roomID s.rooms

/-- The statement of C6 for room `r1` with the single member 7, who leaves. -/
theorem leaveRoom_idempotent_witness :
    ∃ s1, leaveRoom (joinRoom (createRoom NewServer "r1") "r1" 7).1 "r1" 7 = some s1 ∧
      leaveRoom s1 "r1" 7 = some s1 ∧
      (7 ∉ ({7} : Finset Conn) → s1 = (joinRoom (createRoom NewServer "r1") "r1" 7).1) :=
  leaveRoom_idempotent (joinRoom (createRoom NewServer "r1") "r1" 7).1 "r1" 7
    { participants := {7}, roomID := "r1" } (by decide)

/-- C7: the handler's resolve step, run without interruption, is total; if a room is
registered under `roomID` the state is unchanged, if none is a new empty room with that
id is registered and no other entry changes; afterwards a room is registered under
`roomID`, and the `joinRoom` that follows succeeds or returns the room-full error, never
the room-not-found error. -/
theorem resolveRoom_get_or_create (s : Server) (roomID : String) :
    (∀ room, s.rooms roomID = some room → resolveRoom s roomID = s) ∧
    (s.rooms roomID = none →
      (resolveRoom s roomID).rooms roomID = some { participants := ∅, roomID := roomID } ∧
      ∀ other, other ≠ roomID → (resolveRoom s roomID).rooms other = s.rooms other) ∧
    (∃ room, (resolveRoom s roomID).rooms roomID = some room) ∧
    (∀ conn, ((joinRoom (resolveRoom s roomID) roomID conn).2 = none ∨
        (joinRoom (resolveRoom s roomID) roomID conn).2 = some (errRoomFull roomID)) ∧
      (joinRoom (resolveRoom s roomID) roomID conn).2 ≠ some (errRoomNotFound roomID)) := by
  have hex : ∃ room, (resolveRoom s roomID).rooms roomID = some room := by
    cases h : s.rooms roomID with
    | none => exact ⟨⟨∅, roomID⟩, by simp [resolveRoom, h, createRoom]⟩
    | some room => exact ⟨room, by simp [resolveRoom, h]⟩
  refine ⟨?_, ?_, hex, ?_⟩
  · intro room h
    simp [resolveRoom, h]
  · intro h
    refine ⟨by simp [resolveRoom, h, createRoom], ?_⟩
    intro other hne
    simp [resolveRoom, h, createRoom, Function.update_noteq hne]
  · intro conn
    obtain ⟨room, hroom⟩ := hex
    by_cases hlt : room.participants.card < 2
    · rw [joinRoom_of_lt _ roomID conn room hroom hlt]
      simp
    · rw [joinRoom_of_ge _ roomID conn room hroom (by omega)]
      refine ⟨Or.inr rfl, ?_⟩
      intro h
      exact errRoomFull_ne_errRoomNotFound roomID roomID (Option.some.inj h)

/-- The statement of C7 on a new server and the room id `r1`. -/
theorem resolveRoom_get_or_create_witness :
    (resolveRoom NewServer "r1").rooms "r1" = some { participants := ∅, roomID := "r1" } ∧
    (joinRoom (resolveRoom NewServer "r1") "r1" 7).2 ≠ some (errRoomNotFound "r1") :=
  ⟨((resolveRoom_get_or_create NewServer "r1").2.1 (by decide)).1,
   ((resolveRoom_get_or_create NewServer "r1").2.2.2 7).2⟩

/-- C1: in every state reached from `NewServer` by a finite sequence of `createRoom`,
`joinRoom`, `broadcastRoom` and leave steps, every room of the directory has at most 2
participants. -/
theorem capacity_invariant (ops : List Op) (s : Server)
    (hrun : runOps NewServer ops = some s) (roomID : String) (room : ChatRoom)
    (hreg : s.rooms roomID = some room) : room.participants.card ≤ 2 := by
  have h0 : CapacityOK NewServer := by
    intro k r hk
    simp [NewServer] at hk
  exact CapacityOK_runOps ops NewServer s h0 hrun roomID room hreg

/-- The statement of C1 after creating `r1` and three joins, by connections 1, 2 and 3. -/
theorem capacity_invariant_witness :
    runOps NewServer [.create "r1", .join "r1" 1, .join "r1" 2, .join "r1" 3] =
      some (joinRoom (joinRoom (joinRoom (createRoom NewServer "r1") "r1" 1).1 "r1" 2).1
        "r1" 3).1 ∧
    (joinRoom (joinRoom (joinRoom (createRoom NewServer "r1") "r1" 1).1 "r1" 2).1
        "r1" 3).1.rooms "r1" = some { participants := insert 2 {1}, roomID := "r1" } ∧
    ({ participants := insert 2 {1}, roomID := "r1" } : ChatRoom).participants.card ≤ 2 :=
  ⟨rfl, by decide,
   capacity_invariant [.create "r1", .join "r1" 1, .join "r1" 2, .join "r1" 3] _ rfl "r1"
     { participants := insert 2 {1}, roomID := "r1" } (by decide)⟩

/-- C10, as stated, fails in its last clause: connection 1 joins room `r1`, then
`createRoom` is executed for `r1` again (one of the operations the claim lists; in
`handleWebSocket` it happens when a second handler made its lookup before the room
existed). The lookup of the leave step then finds a room under `r1`, but it is a new
empty room and not the one connection 1 joined: connection 1 is not a participant of it. -/
theorem lookup_after_recreate_finds_new_room :
    (joinRoom (createRoom NewServer "r1") "r1" 1).2 = none ∧
    (joinRoom (createRoom NewServer "r1") "r1" 1).1.rooms "r1" =
      some { participants := insert 1 ∅, roomID := "r1" } ∧
    runOps (joinRoom (createRoom NewServer "r1") "r1" 1).1 [.create "r1"] =
      some (createRoom (joinRoom (createRoom NewServer "r1") "r1" 1).1 "r1") ∧
    (createRoom (joinRoom (createRoom NewServer "r1") "r1" 1).1 "r1").rooms "r1" =
      some { participants := ∅, roomID := "r1" } ∧
    ¬ Member (createRoom (joinRoom (createRoom NewServer "r1") "r1" 1).1 "r1") "r1" 1 := by
  refine ⟨by decide, by decide, rfl, by decide, ?_⟩
  rintro ⟨room, hroom, hmem⟩
  have hnew : (createRoom (joinRoom (createRoom NewServer "r1") "r1" 1).1 "r1").rooms "r1" =
      some { participants := ∅, roomID := "r1" } := by decide
  rw [hnew] at hroom
  cases hroom
  simp at hmem

/-- C10, amended: no operation removes an entry of the directory: a room id registered
before `createRoom`, `joinRoom`, `broadcastRoom` or a leave step is registered after it, hence
after every finite sequence of them; a room whose last member leaves stays registered,
with no members; after a successful `joinRoom roomID conn` and any further operations
the leave step for `roomID` finds a room registered under `roomID` and does not panic;
and when none of those operations is `createRoom roomID` or the leave step of `conn`
itself, `conn` is still a participant of the room found. -/
theorem room_retention :
    (∀ (s s1 : Server) (op : Op) (k : String),
      op.run s = some s1 → Registered s k → Registered s1 k) ∧
    (∀ (s s1 : Server) (ops : List Op) (k : String),
      runOps s ops = some s1 → Registered s k → Registered s1 k) ∧
    (∀ (s : Server) (roomID : String) (conn : Conn) (room : ChatRoom),
      s.rooms roomID = some room → room.participants ⊆ {conn} →
      ∃ s1, leaveRoom s roomID conn = some s1 ∧
        s1.rooms roomID = some { participants := ∅, roomID := room.roomID }) ∧
    (∀ (s s1 s2 : Server) (roomID : String) (conn : Conn) (ops : List Op),
      joinRoom s roomID conn = (s1, none) → runOps s1 ops = some s2 →
      ∃ s3 room, s2.rooms roomID = some room ∧ leaveRoom s2 roomID conn = some s3 ∧
        Registered s3 roomID) ∧
    (∀ (s s1 s2 : Server) (roomID : String) (conn : Conn) (ops : List Op),
      joinRoom s roomID conn = (s1, none) → runOps s1 ops = some s2 →
      (∀ op ∈ ops, op ≠ .create roomID ∧ op ≠ .leave roomID conn) →
      Member s2 roomID conn) := by
  refine ⟨?_, ?_, ?_, ?_, ?_⟩
  · intro s s1 op k hrun h
    exact Registered_run s s1 op k h hrun
  · intro s s1 ops k hrun h
    exact Registered_runOps ops k s s1 h hrun
  · intro s roomID conn room hreg hsub
    refine ⟨_, leaveRoom_of_registered s roomID conn room hreg, ?_⟩
    have he : room.participants.erase conn = ∅ := by
      apply Finset.eq_empty_of_forall_not_mem
      intro x hx
      have hx1 := Finset.mem_erase.mp hx
      have hx2 := Finset.mem_singleton.mp (hsub hx1.2)
      exact hx1.1 hx2
    simp [he]
  · intro s s1 s2 roomID conn ops hj hrun
    have h1 := Registered_of_joinRoom s s1 roomID conn hj
    have h2 := Registered_runOps ops roomID s1 s2 h1 hrun
    cases hreg : s2.rooms roomID with
    | none => simp [Registered, hreg] at h2
    | some room =>
      refine ⟨_, room, rfl, leaveRoom_of_registered s2 roomID conn room hreg, ?_⟩
      simp [Registered]
  · intro s s1 s2 roomID conn ops hj hrun hops
    exact Member_runOps ops roomID conn s1 s2 (Member_of_joinRoom s s1 roomID conn hj)
      hrun hops

/-- The amended statement of C10 for the room `r1` along a join, a leave and the creation
of `r2`. -/
theorem room_retention_witness :
    Registered (createRoom NewServer "r1") "r1" ∧
    runOps (createRoom NewServer "r1") [.join "r1" 1, .leave "r1" 1, .create "r2"] =
      (leaveRoom (joinRoom (createRoom NewServer "r1") "r1" 1).1 "r1" 1).map
        (fun s => createRoom s "r2") ∧
    Registered (createRoom ((leaveRoom (joinRoom (createRoom NewServer "r1") "r1" 1).1
      "r1" 1).getD NewServer) "r2") "r1" :=
  ⟨by decide, rfl,
   room_retention.2.1 (createRoom NewServer "r1") _
     [.join "r1" 1, .leave "r1" 1, .create "r2"] "r1" rfl (by decide)⟩

/-- C3, as stated, fails: three `joinRoom` calls with the same connection on a room that
starts empty all succeed, since adding a member that is already in the set leaves its
size at 1. -/
theorem joinAll_same_conn_three_successes :
    (createRoom NewServer "r1").rooms "r1" = some { participants := ∅, roomID := "r1" } ∧
    (joinAll (createRoom NewServer "r1") "r1" [7, 7, 7]).2 = [none, none, none] ∧
    ¬ successes (joinAll (createRoom NewServer "r1") "r1" [7, 7, 7]).2 ≤ 2 := by
  decide

/-- C3, amended: for every finite sequence of `joinRoom` calls with pairwise distinct
connections on a registered room that starts empty, the first two calls succeed and
every later call returns the room-full error; so at most 2 calls succeed. -/
theorem joinAll_distinct (s : Server) (roomID : String) (room : ChatRoom) (conns : List Conn)
    (hreg : s.rooms roomID = some room) (hempty : room.participants = ∅)
    (hnd : conns.Nodup) :
    (joinAll s roomID conns).2 =
      List.replicate (min 2 conns.length) none ++
        List.replicate (conns.length - 2) (some (errRoomFull roomID)) ∧
    successes (joinAll s roomID conns).2 ≤ 2 := by
  have hcard : room.participants.card < 2 := by simp [hempty]
  match conns, hnd with
  | [], _ => exact ⟨rfl, by simp [joinAll, successes]⟩
  | [a], _ =>
    have h1 := joinRoom_rooms_of_lt s roomID a room hreg hcard
    refine ⟨by simp [joinAll, h1.1], by simp [joinAll, successes, h1.1]⟩
  | a :: b :: rest, hnd =>
    have hab : a ≠ b := by
      intro h
      simp [h] at hnd
    have h1 := joinRoom_rooms_of_lt s roomID a room hreg hcard
    have hc1 : (insert a room.participants).card < 2 := by
      simp [hempty]
    have h2 := joinRoom_rooms_of_lt _ roomID b ⟨insert a room.participants, room.roomID⟩
      h1.2 hc1
    have hc2 : (insert b (insert a room.participants)).card ≥ 2 := by
      have hba : b ∉ insert a (∅ : Finset Conn) := by
        simpa using fun h => hab h.symm
      rw [hempty, Finset.card_insert_of_not_mem hba]
      simp
    have h3 := joinAll_full roomID rest _
      ⟨insert b (insert a room.participants), room.roomID⟩ h2.2 hc2
    have hres : (joinAll s roomID (a :: b :: rest)).2 =
        none :: none :: List.replicate rest.length (some (errRoomFull roomID)) := by
      simp [joinAll, h1.1, h2.1, h3]
    refine ⟨?_, ?_⟩
    · rw [hres]
      simp [List.replicate_succ]
    · rw [hres]
      have h0 := successes_replicate_some rest.length (errRoomFull roomID)
      simp only [successes] at h0
      simp [successes, h0]

/-- The amended statement of C3 for the connections 7, 8 and 9 on the empty room `r1`. -/
theorem joinAll_distinct_witness :
    (createRoom NewServer "r1").rooms "r1" = some { participants := ∅, roomID := "r1" } ∧
    [7, 8, 9].Nodup ∧
    (joinAll (createRoom NewServer "r1") "r1" [7, 8, 9]).2 =
      List.replicate (min 2 [7, 8, 9].length) none ++
        List.replicate ([7, 8, 9].length - 2) (some (errRoomFull "r1")) :=
  ⟨by decide, by decide,
   (joinAll_distinct (createRoom NewServer "r1") "r1" { participants := ∅, roomID := "r1" }
      [7, 8, 9] (by decide) rfl (by decide)).1⟩

/-- C4 (the code does not do this): in room `r1` with the members 1 and 2, when the loop
visits 1 first and the write to 1 fails, `broadcastRoom` returns that error at once and
makes no write to 2, whose writes would succeed; visiting 2 first, both writes are made. -/
theorem broadcastRoom_stops_at_first_failure :
    twoMembers.rooms "r1" = some { participants := insert 2 {1}, roomID := "r1" } ∧
    IsRangeOrder (insert 2 {1}) [1, 2] ∧
    writeFailsOn1 2 hello = none ∧
    (broadcastRoom writeFailsOn1 [1, 2] twoMembers "r1" hello).sends = [(1, hello)] ∧
    (2, hello) ∉ (broadcastRoom writeFailsOn1 [1, 2] twoMembers "r1" hello).sends ∧
    (broadcastRoom writeFailsOn1 [1, 2] twoMembers "r1" hello).err =
      some "write: broken pipe" ∧
    (broadcastRoom writeFailsOn1 [2, 1] twoMembers "r1" hello).sends =
      [(2, hello), (1, hello)] := by
  decide

/-- C5: on a registered room, with a visiting order of its participants and no failing
write, `broadcastRoom` returns `nil`, leaves the server state as it was, and its writes
are one write of `msg` to each participant of the room: every participant gets `msg`
exactly once, and every write goes to a participant and carries `msg`. -/
theorem broadcastRoom_fan_out (write : Conn → Bytes → Option Error) (order : List Conn)
    (s : Server) (roomID : String) (msg : Bytes) (room : ChatRoom)
    (hreg : s.rooms roomID = some room) (hord : IsRangeOrder room.participants order)
    (hok : ∀ c ∈ room.participants, write c msg = none) :
    (broadcastRoom write order s roomID msg).server = s ∧
    (broadcastRoom write order s roomID msg).err = none ∧
    (broadcastRoom write order s roomID msg).sends = order.map (fun c => (c, msg)) ∧
    (broadcastRoom write order s roomID msg).sends.length = room.participants.card ∧
    (∀ c ∈ room.participants,
      (broadcastRoom write order s roomID msg).sends.count (c, msg) = 1) ∧
    (∀ c m, (c, m) ∈ (broadcastRoom write order s roomID msg).sends →
      c ∈ room.participants ∧ m = msg) := by
  obtain ⟨hs, he⟩ := broadcastRoom_all_ok write order s roomID msg room hreg hord hok
  refine ⟨broadcastRoom_server _ _ _ _ _, he, hs, ?_, ?_, ?_⟩
  · rw [hs, List.length_map, ← hord.2, List.toFinset_card_of_nodup hord.1]
  · intro c hc
    rw [hs, count_map_pair]
    apply List.count_eq_one_of_mem hord.1
    rw [← hord.2] at hc
    exact List.mem_toFinset.mp hc
  · intro c m hm
    rw [hs] at hm
    obtain ⟨d, hd, hp⟩ := List.mem_map.mp hm
    cases hp
    refine ⟨?_, rfl⟩
    rw [← hord.2]
    exact List.mem_toFinset.mpr hd

/-- The statement of C5 for room `r1` with the members 1 and 2, visited in the order 2, 1. -/
theorem broadcastRoom_fan_out_witness :
    twoMembers.rooms "r1" = some { participants := insert 2 {1}, roomID := "r1" } ∧
    IsRangeOrder (insert 2 {1}) [2, 1] ∧
    (broadcastRoom (fun _ _ => none) [2, 1] twoMembers "r1" hello).sends =
      [2, 1].map (fun c => (c, hello)) :=
  ⟨by decide, by decide,
   (broadcastRoom_fan_out (fun _ _ => none) [2, 1] twoMembers "r1" hello
      { participants := insert 2 {1}, roomID := "r1" } (by decide) (by decide)
      (fun _ _ => rfl)).2.2.1⟩

/-- C8 (the code does not do this): two handlers resolve the new room id `x`. Both look
it up before either creates it; the first creates the room and joins it; then the second
calls `createRoom` as well, which stores a second, empty room under `x` in place of the
one holding connection 1. Both `joinRoom` calls returned `nil`, two rooms were
allocated, and the registered room holds connection 2 only. -/
theorem concurrent_resolve_replaces_room :
    (runSchedule "x" twoHandlers [0, 1, 0, 0]).server.rooms "x" =
      some { participants := insert 1 ∅, roomID := "x" } ∧
    (runSchedule "x" twoHandlers [0, 1, 0, 0]).created = 1 ∧
    (runSchedule "x" twoHandlers [0, 1, 0, 0, 1]).server.rooms "x" =
      some { participants := ∅, roomID := "x" } ∧
    (runSchedule "x" twoHandlers [0, 1, 0, 0, 1, 1]).handlers =
      [{ conn := 1, pc := .admitted }, { conn := 2, pc := .admitted }] ∧
    (runSchedule "x" twoHandlers [0, 1, 0, 0, 1, 1]).created = 2 ∧
    (runSchedule "x" twoHandlers [0, 1, 0, 0, 1, 1]).server.rooms "x" =
      some { participants := insert 2 ∅, roomID := "x" } := by
  decide

/-- C9: from `NewServer`, after the resolve step for `roomID`: `joinRoom` for `c1`
succeeds, `joinRoom` for a different `c2` succeeds, `joinRoom` for `c3` returns the
room-full error and changes nothing; a broadcast of `msg` whose writes to `c1` and `c2`
do not fail returns `nil` and writes to `c2` exactly once, with payload `msg`; after the
leave step of `c1` the room holds exactly `c2`; and `joinRoom` for `c4` then succeeds.
Of the four connections only `c1` and `c2` have to differ. -/
theorem end_to_end (roomID : String) (msg : Bytes) (c1 c2 c3 c4 : Conn) (hne : c1 ≠ c2)
    (write : Conn → Bytes → Option Error) (order : List Conn)
    (hw1 : write c1 msg = none) (hw2 : write c2 msg = none)
    (hord : IsRangeOrder {c1, c2} order) :
    ∃ s1 s2 s5 : Server,
      joinRoom (resolveRoom NewServer roomID) roomID c1 = (s1, none) ∧
      joinRoom s1 roomID c2 = (s2, none) ∧
      joinRoom s2 roomID c3 = (s2, some (errRoomFull roomID)) ∧
      (broadcastRoom write order s2 roomID msg).err = none ∧
      (broadcastRoom write order s2 roomID msg).sends.count (c2, msg) = 1 ∧
      (∀ m, (c2, m) ∈ (broadcastRoom write order s2 roomID msg).sends → m = msg) ∧
      leaveRoom (broadcastRoom write order s2 roomID msg).server roomID c1 = some s5 ∧
      s5.rooms roomID = some { participants := {c2}, roomID := roomID } ∧
      (joinRoom s5 roomID c4).2 = none := by
  have h0 : (resolveRoom NewServer roomID).rooms roomID = some ⟨∅, roomID⟩ := by
    simp [resolveRoom, NewServer, createRoom]
  have j1 := joinRoom_rooms_of_lt _ roomID c1 ⟨∅, roomID⟩ h0 (by simp)
  have j2 := joinRoom_rooms_of_lt _ roomID c2 ⟨insert c1 ∅, roomID⟩ j1.2 (by simp)
  have hset : insert c2 (insert c1 (∅ : Finset Conn)) = {c1, c2} := by
    ext x
    simp only [Finset.mem_insert, Finset.mem_singleton, Finset.not_mem_empty, or_false]
    exact or_comm
  have hreg2 : (joinRoom (joinRoom (resolveRoom NewServer roomID) roomID c1).1 roomID c2).1.rooms
      roomID = some ⟨{c1, c2}, roomID⟩ := by
    rw [j2.2]
    simp only [hset]
  have hcard : ({c1, c2} : Finset Conn).card ≥ 2 := by
    rw [Finset.card_pair hne]
  have j3 := joinRoom_of_ge _ roomID c3 ⟨{c1, c2}, roomID⟩ hreg2 hcard
  have hok : ∀ c ∈ ({c1, c2} : Finset Conn), write c msg = none := by
    intro c hc
    rcases Finset.mem_insert.mp hc with h | h
    · rw [h]; exact hw1
    · rw [Finset.mem_singleton.mp h]; exact hw2
  obtain ⟨hs, he⟩ := broadcastRoom_all_ok write order _ roomID msg ⟨{c1, c2}, roomID⟩
    hreg2 hord hok
  have hmem2 : c2 ∈ order := by
    apply List.mem_toFinset.mp
    rw [hord.2]
    simp
  have herase : ({c1, c2} : Finset Conn).erase c1 = {c2} := by
    ext x
    simp only [Finset.mem_erase, Finset.mem_insert, Finset.mem_singleton]
    constructor
    · rintro ⟨h1, h2 | h2⟩
      · exact absurd h2 h1
      · exact h2
    · intro h
      subst h
      exact ⟨fun h => hne h.symm, Or.inr rfl⟩
  refine ⟨(joinRoom (resolveRoom NewServer roomID) roomID c1).1,
    (joinRoom (joinRoom (resolveRoom NewServer roomID) roomID c1).1 roomID c2).1,
    ⟨Function.update
      (joinRoom (joinRoom (resolveRoom NewServer roomID) roomID c1).1 roomID c2).1.rooms roomID
      (some ⟨({c1, c2} : Finset Conn).erase c1, roomID⟩)⟩,
    Prod.ext rfl j1.1, Prod.ext rfl j2.1, j3, he, ?_, ?_, ?_, ?_, ?_⟩
  · rw [hs, count_map_pair]
    exact List.count_eq_one_of_mem hord.1 hmem2
  · intro m hm
    rw [hs] at hm
    obtain ⟨d, _, hp⟩ := List.mem_map.mp hm
    cases hp
    rfl
  · rw [broadcastRoom_server]
    exact leaveRoom_of_registered _ roomID c1 ⟨{c1, c2}, roomID⟩ hreg2
  · simp [herase]
  · exact (joinRoom_rooms_of_lt _ roomID c4 ⟨({c1, c2} : Finset Conn).erase c1, roomID⟩
      (by simp) (by simp [herase])).1

/-- The scenario of C9 with room `r1`, payload `hello` and the connections 1, 2, 3 and 4. -/
theorem end_to_end_witness :
    (1 : Conn) ≠ 2 ∧ IsRangeOrder {1, 2} [2, 1] ∧
    ∃ s1 s2 s5 : Server,
      joinRoom (resolveRoom NewServer "r1") "r1" 1 = (s1, none) ∧
      joinRoom s1 "r1" 2 = (s2, none) ∧
      joinRoom s2 "r1" 3 = (s2, some (errRoomFull "r1")) ∧
      (broadcastRoom (fun _ _ => none) [2, 1] s2 "r1" hello).err = none ∧
      (broadcastRoom (fun _ _ => none) [2, 1] s2 "r1" hello).sends.count (2, hello) = 1 ∧
      (∀ m, (2, m) ∈ (broadcastRoom (fun _ _ => none) [2, 1] s2 "r1" hello).sends →
        m = hello) ∧
      leaveRoom (broadcastRoom (fun _ _ => none) [2, 1] s2 "r1" hello).server "r1" 1 =
        some s5 ∧
      s5.rooms "r1" = some { participants := {2}, roomID := "r1" } ∧
      (joinRoom s5 "r1" 4).2 = none :=
  ⟨by decide, by decide,
   end_to_end "r1" hello 1 2 3 4 (by decide) (fun _ _ => none) [2, 1] rfl rfl (by decide)⟩

end ChatServer
